import Mathlib

/-!
A shallow embedding of `src/rcpool.h` (`mklib::RCPool<INST_T>` and its nested
`InnerRCPool` / `GetWrapper`).

Modelling choices:
* Resource instances (`std::shared_ptr<INST_T>` values, keyed by their raw
  pointer) are modelled by natural-number identities.  The `factory` lambda
  allocates a fresh identity `next_id` on each successful construction;
  whether a given factory invocation succeeds (the C++ factory may throw) is
  an explicit boolean parameter of the acquire step.
* `used` and `unused` are `std::unordered_map<INST_T*, shared_ptr<INST_T>>`,
  i.e. finite sets of instances keyed by identity.  They are embedded as
  duplicate-free lists.  Iteration order of `unordered_map` is unspecified in
  C++; the embedding fixes one admissible determinization: insertion at the
  front (`emplace`) and removal of the front element (`begin()`/`erase(begin())`).
* The condition-variable waits are embedded sequentially: a single operation
  runs with no interleaved thread, so the availability predicate seen when the
  wait starts persists.  A zero-timeout `cv.wait` whose predicate is false
  therefore never returns (`GetResult.blocked`), and a nonzero-timeout
  `cv.wait_until` whose predicate is false times out (`GetResult.timeout`).
  Wall-clock durations are outside the embedding.
-/

namespace RCPool

/-- `RCPool<INST_T>::GetStatus` from `src/rcpool.h` (SUCCESS, CTORF, TIMEOUT,
UNKNOWN). -/
inductive GetStatus where
  | SUCCESS
  | CTORF
  | TIMEOUT
  | UNKNOWN
deriving DecidableEq, Repr

/-- Outcome of one call to `InnerRCPool::inner_get`: it either returns an
instance, throws `ResourceTimedoutException`, throws
`GenericResourceException` (factory failure), or — with `timeout_s == 0` and
availability never arriving — stays blocked in `cv.wait` forever. -/
inductive GetResult where
  | success (x : Nat)
  | timeout
  | ctorf
  | blocked
deriving DecidableEq, Repr

/-- The state of one `InnerRCPool`: configuration (`idle_limit`, `max_limit`),
the live-instance counter `cur_sz`, the leased map `used`, the idle map
`unused`, and the allocator counter `next_id` standing for the supply of fresh
instances the factory can produce. -/
structure PoolState where
  idle_limit : Nat
  max_limit : Nat
  cur_sz : Nat
  used : List Nat
  unused : List Nat
  next_id : Nat
deriving DecidableEq, Repr

/-- `InnerRCPool::InnerRCPool(idle_limit_, max_limit_, args...)`: `cur_sz = 0`,
`max_limit = std::max(idle_limit_, max_limit_)`, both maps empty. -/
def mkPool (idle_limit_ max_limit_ : Nat) : PoolState :=
  { idle_limit := idle_limit_
    max_limit := max idle_limit_ max_limit_
    cur_sz := 0
    used := []
    unused := []
    next_id := 0 }

/-- `InnerRCPool::resource_available`: `cur_sz < max_limit`. -/
def resource_available (s : PoolState) : Bool :=
  s.cur_sz < s.max_limit

/-- `InnerRCPool::inner_get(timeout_s)`.  `factoryOk` tells whether the factory
invocation, if reached, succeeds (it throws otherwise).  Under the lock: wait
for `resource_available` (blocking forever when `timeout_s == 0`, throwing
`ResourceTimedoutException` on expiry otherwise); then take `unused.begin()`
if the idle map is nonempty, else invoke the factory (wrapping a factory
exception into `GenericResourceException` before `cur_sz++` runs) and
increment `cur_sz`; finally `used.emplace` the instance and return it. -/
def inner_get (s : PoolState) (timeout_s : Nat) (factoryOk : Bool) :
    GetResult × PoolState :=
  if resource_available s then
    match s.unused with
    | x :: rest =>
        (GetResult.success x, { s with unused := rest, used := x :: s.used })
    | [] =>
        if factoryOk then
          (GetResult.success s.next_id,
           { s with cur_sz := s.cur_sz + 1
                    used := s.next_id :: s.used
                    next_id := s.next_id + 1 })
        else
          (GetResult.ctorf, s)
  else if timeout_s ≠ 0 then
    (GetResult.timeout, s)
  else
    (GetResult.blocked, s)

/-- `InnerRCPool::inner_put(ptr)`.  Under the lock: find `ptr` in `used`;
absent means return immediately.  Then compare `used.size() > idle_limit`
(the leased-map size before the erase) — discard and `cur_sz--` if so,
otherwise `unused.emplace` the instance — and erase it from `used`. -/
def inner_put (s : PoolState) (x : Nat) : PoolState :=
  if x ∈ s.used then
    if s.idle_limit < s.used.length then
      { s with cur_sz := s.cur_sz - 1, used := s.used.erase x }
    else
      { s with unused := x :: s.unused, used := s.used.erase x }
  else s

/-- `RCPool<INST_T>::GetWrapper`: the pool-state side of a lease is just the
(optional) held instance plus the status code; the `rcpool_` back-reference is
implicit, the pool state being threaded explicitly. -/
structure GetWrapper where
  ptr : Option Nat
  err : GetStatus
deriving DecidableEq, Repr

/-- `RCPool::get(timeout_s)`: calls `inner_get` and converts each escaping
exception at the boundary — `ResourceTimedoutException ↦ TIMEOUT`,
`GenericResourceException ↦ CTORF`, anything else `↦ UNKNOWN` — into a status
on a wrapper holding no instance.  `none` is the zero-timeout call that never
returns because `inner_get` is still blocked in `cv.wait`. -/
def get (s : PoolState) (timeout_s : Nat) (factoryOk : Bool) :
    Option (GetWrapper × PoolState) :=
  match inner_get s timeout_s factoryOk with
  | (GetResult.success x, s') => some (⟨some x, GetStatus.SUCCESS⟩, s')
  | (GetResult.timeout, s') => some (⟨none, GetStatus.TIMEOUT⟩, s')
  | (GetResult.ctorf, s') => some (⟨none, GetStatus.CTORF⟩, s')
  | (GetResult.blocked, _) => none

/-- `RCPool::size()`: returns `cur_sz`. -/
def size (s : PoolState) : Nat :=
  s.cur_sz

/-- `GetWrapper::operator bool()`: true iff an instance is held. -/
def GetWrapper.toBool (w : GetWrapper) : Bool :=
  w.ptr.isSome

/-- `GetWrapper::~GetWrapper()`: `if (ptr_) rcpool_->inner_put(ptr_)` — the
effect of destroying the wrapper on a pool state. -/
def GetWrapper.dtor (s : PoolState) (w : GetWrapper) : PoolState :=
  match w.ptr with
  | some x => inner_put s x
  | none => s

/-- `GetWrapper::GetWrapper(GetWrapper&&)`: the target takes `rcpool_` and
`ptr_`, then `rhs.ptr_ = nullptr`.  Returns (move-to target, moved-from
source).  (The C++ move constructor leaves the target's `err_` uninitialized;
the embedding carries the source's status, which no release-obligation claim
depends on.) -/
def GetWrapper.moveCtor (w : GetWrapper) : GetWrapper × GetWrapper :=
  (⟨w.ptr, w.err⟩, ⟨none, w.err⟩)

/-- `GetWrapper::operator=(GetWrapper&&)`: release the currently held
instance if any, take `rhs.ptr_`, clear `rhs.ptr_`.  Returns (pool state
after the release, assigned-to wrapper, moved-from wrapper).  NOTE: the
source line reads `rcpool_.inner_put(ptr_);` — member access with `.` on a
`std::shared_ptr<InnerRCPool>`, which is ill-formed C++ whenever this
operator is instantiated; the embedding follows the evident intent
`rcpool_->inner_put(ptr_)`. -/
def GetWrapper.moveAssign (s : PoolState) (dst src : GetWrapper) :
    PoolState × GetWrapper × GetWrapper :=
  (match dst.ptr with
   | some x => inner_put s x
   | none => s,
   ⟨src.ptr, dst.err⟩, ⟨none, src.err⟩)

/-- One externally invocable pool operation: an acquire (with its timeout and
the fate of a factory invocation, if one is reached) or a release of a given
instance identity. -/
inductive Op where
  | get (timeout_s : Nat) (factoryOk : Bool)
  | put (x : Nat)
deriving DecidableEq, Repr

/-- The pool-state effect of one operation. -/
def step (s : PoolState) (op : Op) : PoolState :=
  match op with
  | Op.get t ok => (inner_get s t ok).2
  | Op.put x => inner_put s x

/-- Run a sequence of operations from a state. -/
def run (s : PoolState) (ops : List Op) : PoolState :=
  ops.foldl step s

/-- The pool's bookkeeping invariant: `used` and `unused` are duplicate-free
and disjoint, `cur_sz` counts their union, `cur_sz ≤ max_limit`, every
recorded identity was allocated (`< next_id`), and whenever the idle map is
nonempty the total live count is at most `idle_limit`. -/
def Inv (s : PoolState) : Prop :=
  s.used.Nodup ∧
  s.unused.Nodup ∧
  (∀ x ∈ s.used, x ∉ s.unused) ∧
  s.cur_sz = s.used.length + s.unused.length ∧
  s.cur_sz ≤ s.max_limit ∧
  (∀ x ∈ s.used, x < s.next_id) ∧
  (∀ x ∈ s.unused, x < s.next_id) ∧
  (s.unused ≠ [] → s.used.length + s.unused.length ≤ s.idle_limit)

instance (s : PoolState) : Decidable (Inv s) := by
  unfold Inv
  infer_instance

/-- An instance that has been discarded by the pool: recorded in neither map,
yet already allocated, so the factory can never mint it again. -/
def Dead (s : PoolState) (x : Nat) : Prop :=
  x ∉ s.used ∧ x ∉ s.unused ∧ x < s.next_id

instance (s : PoolState) (x : Nat) : Decidable (Dead s x) := by
  unfold Dead
  infer_instance

/-- No acquire along the operation sequence, run from `s`, returns
instance `x`. -/
def NeverGets (x : Nat) : PoolState → List Op → Prop
  | _, [] => True
  | s, op :: rest =>
      (match op with
       | Op.get t ok => (inner_get s t ok).1 ≠ GetResult.success x
       | Op.put _ => True) ∧ NeverGets x (step s op) rest

theorem mkPool_inv (il ml : Nat) : Inv (mkPool il ml) := by
  refine ⟨?_, ?_, ?_, ?_, ?_, ?_, ?_, ?_⟩ <;> simp [mkPool, Inv]

theorem step_idle_limit (s : PoolState) (op : Op) :
    (step s op).idle_limit = s.idle_limit := by
  cases op with
  | get t ok =>
      simp only [step, inner_get]
      split
      · split <;> simp_all
        split <;> simp_all
      · split <;> simp_all
  | put x =>
      simp only [step, inner_put]
      split
      · split <;> simp_all
      · rfl

theorem step_max_limit (s : PoolState) (op : Op) :
    (step s op).max_limit = s.max_limit := by
  cases op with
  | get t ok =>
      simp only [step, inner_get]
      split
      · split <;> simp_all
        split <;> simp_all
      · split <;> simp_all
  | put x =>
      simp only [step, inner_put]
      split
      · split <;> simp_all
      · rfl

theorem inner_get_reuse (s : PoolState) (t : Nat) (ok : Bool) (x : Nat)
    (rest : List Nat) (havail : s.cur_sz < s.max_limit)
    (hu : s.unused = x :: rest) :
    inner_get s t ok =
      (GetResult.success x, { s with unused := rest, used := x :: s.used }) := by
  simp [inner_get, resource_available, havail, hu]

theorem inner_get_construct (s : PoolState) (t : Nat)
    (havail : s.cur_sz < s.max_limit) (hu : s.unused = []) :
    inner_get s t true =
      (GetResult.success s.next_id,
       { s with cur_sz := s.cur_sz + 1, used := s.next_id :: s.used,
                next_id := s.next_id + 1 }) := by
  simp [inner_get, resource_available, havail, hu]

theorem inner_get_ctorf (s : PoolState) (t : Nat)
    (havail : s.cur_sz < s.max_limit) (hu : s.unused = []) :
    inner_get s t false = (GetResult.ctorf, s) := by
  simp [inner_get, resource_available, havail, hu]

theorem inner_get_timeout (s : PoolState) (t : Nat) (ok : Bool)
    (hnav : ¬ s.cur_sz < s.max_limit) (ht : t ≠ 0) :
    inner_get s t ok = (GetResult.timeout, s) := by
  simp [inner_get, resource_available, hnav, ht]

theorem inner_get_blocked (s : PoolState) (ok : Bool)
    (hnav : ¬ s.cur_sz < s.max_limit) :
    inner_get s 0 ok = (GetResult.blocked, s) := by
  simp [inner_get, resource_available, hnav]

theorem inner_put_absent (s : PoolState) (x : Nat) (h : x ∉ s.used) :
    inner_put s x = s := by
  simp [inner_put, h]

theorem inner_put_discard (s : PoolState) (x : Nat) (hx : x ∈ s.used)
    (hgt : s.idle_limit < s.used.length) :
    inner_put s x = { s with cur_sz := s.cur_sz - 1, used := s.used.erase x } := by
  simp [inner_put, hx, hgt]

theorem inner_put_park (s : PoolState) (x : Nat) (hx : x ∈ s.used)
    (hle : ¬ s.idle_limit < s.used.length) :
    inner_put s x =
      { s with unused := x :: s.unused, used := s.used.erase x } := by
  simp [inner_put, hx, hle]

theorem inner_get_inv (s : PoolState) (t : Nat) (ok : Bool) (h : Inv s) :
    Inv (inner_get s t ok).2 := by
  obtain ⟨hnu, hnn, hdisj, hcount, hbound, hfu, hfn, hidle⟩ := h
  by_cases havail : s.cur_sz < s.max_limit
  · cases hu : s.unused with
    | cons x rest =>
        rw [inner_get_reuse s t ok x rest havail hu]
        simp only [Inv]
        rw [hu] at hnn hdisj hcount hfn hidle
        have hxu : x ∉ s.used := fun hx => hdisj x hx (List.mem_cons_self x rest)
        refine ⟨List.nodup_cons.mpr ⟨hxu, hnu⟩, (List.nodup_cons.mp hnn).2, ?_, ?_,
          hbound, ?_, ?_, ?_⟩
        · intro y hy
          rcases List.mem_cons.mp hy with rfl | hy'
          · exact (List.nodup_cons.mp hnn).1
          · exact fun hr => hdisj y hy' (List.mem_cons_of_mem x hr)
        · simp only [List.length_cons] at hcount ⊢
          omega
        · intro y hy
          rcases List.mem_cons.mp hy with rfl | hy'
          · exact hfn y (List.mem_cons_self y rest)
          · exact hfu y hy'
        · exact fun y hy => hfn y (List.mem_cons_of_mem x hy)
        · intro hrest
          have h2 := hidle (List.cons_ne_nil x rest)
          simp only [List.length_cons] at h2 ⊢
          omega
    | nil =>
        cases ok with
        | true =>
            rw [inner_get_construct s t havail hu]
            simp only [Inv]
            rw [hu] at hcount
            simp only [List.length_nil] at hcount
            have hid : s.next_id ∉ s.used := fun hx =>
              Nat.lt_irrefl s.next_id (hfu s.next_id hx)
            refine ⟨List.nodup_cons.mpr ⟨hid, hnu⟩, hnn, ?_, ?_, ?_, ?_, ?_, ?_⟩
            · intro y hy
              rw [hu]
              exact List.not_mem_nil y
            · rw [hu]
              simp only [List.length_cons, List.length_nil]
              omega
            · omega
            · intro y hy
              rcases List.mem_cons.mp hy with rfl | hy'
              · exact Nat.lt_succ_self _
              · exact Nat.lt_succ_of_lt (hfu y hy')
            · exact fun y hy => Nat.lt_succ_of_lt (hfn y hy)
            · rw [hu]
              intro hc
              exact absurd rfl hc
        | false =>
            rw [inner_get_ctorf s t havail hu]
            exact ⟨hnu, hnn, hdisj, hcount, hbound, hfu, hfn, hidle⟩
  · by_cases ht : t = 0
    · subst ht
      rw [inner_get_blocked s ok havail]
      exact ⟨hnu, hnn, hdisj, hcount, hbound, hfu, hfn, hidle⟩
    · rw [inner_get_timeout s t ok havail ht]
      exact ⟨hnu, hnn, hdisj, hcount, hbound, hfu, hfn, hidle⟩

theorem inner_put_inv (s : PoolState) (x : Nat) (h : Inv s) :
    Inv (inner_put s x) := by
  obtain ⟨hnu, hnn, hdisj, hcount, hbound, hfu, hfn, hidle⟩ := h
  by_cases hx : x ∈ s.used
  · have hlen : (s.used.erase x).length = s.used.length - 1 :=
      List.length_erase_of_mem hx
    have hpos : 1 ≤ s.used.length := List.length_pos.mpr (List.ne_nil_of_mem hx)
    by_cases hgt : s.idle_limit < s.used.length
    · rw [inner_put_discard s x hx hgt]
      simp only [Inv]
      refine ⟨hnu.erase x, hnn, ?_, ?_, ?_, ?_, hfn, ?_⟩
      · exact fun y hy => hdisj y (List.mem_of_mem_erase hy)
      · rw [hlen]
        omega
      · omega
      · exact fun y hy => hfu y (List.mem_of_mem_erase hy)
      · intro hne
        have h2 := hidle hne
        rw [hlen]
        omega
    · rw [inner_put_park s x hx hgt]
      simp only [Inv]
      have hxn : x ∉ s.unused := hdisj x hx
      refine ⟨hnu.erase x, List.nodup_cons.mpr ⟨hxn, hnn⟩, ?_, ?_, hbound, ?_, ?_, ?_⟩
      · intro y hy
        have hyx : y ≠ x := ((List.Nodup.mem_erase_iff hnu).mp hy).1
        have hyu : y ∈ s.used := List.mem_of_mem_erase hy
        exact fun hc => (List.mem_cons.mp hc).elim hyx (hdisj y hyu)
      · simp only [List.length_cons]
        rw [hlen]
        omega
      · exact fun y hy => hfu y (List.mem_of_mem_erase hy)
      · intro y hy
        rcases List.mem_cons.mp hy with rfl | hy'
        · exact hfu y hx
        · exact hfn y hy'
      · intro _
        simp only [List.length_cons]
        rw [hlen]
        by_cases hne : s.unused = []
        · rw [hne]
          simp only [List.length_nil]
          omega
        · have h2 := hidle hne
          omega
  · rw [inner_put_absent s x hx]
    exact ⟨hnu, hnn, hdisj, hcount, hbound, hfu, hfn, hidle⟩


theorem step_inv (s : PoolState) (op : Op) (h : Inv s) : Inv (step s op) := by
  cases op with
  | get t ok => exact inner_get_inv s t ok h
  | put x => exact inner_put_inv s x h

theorem run_inv (s : PoolState) (ops : List Op) (h : Inv s) : Inv (run s ops) := by
  induction ops generalizing s with
  | nil => exact h
  | cons op rest ih => exact ih (step s op) (step_inv s op h)

theorem run_mkPool_inv (il ml : Nat) (ops : List Op) :
    Inv (run (mkPool il ml) ops) :=
  run_inv (mkPool il ml) ops (mkPool_inv il ml)

theorem run_max_limit (s : PoolState) (ops : List Op) :
    (run s ops).max_limit = s.max_limit := by
  induction ops generalizing s with
  | nil => rfl
  | cons op rest ih => rw [run, List.foldl_cons, ← run, ih, step_max_limit]

theorem run_idle_limit (s : PoolState) (ops : List Op) :
    (run s ops).idle_limit = s.idle_limit := by
  induction ops generalizing s with
  | nil => rfl
  | cons op rest ih => rw [run, List.foldl_cons, ← run, ih, step_idle_limit]

theorem inner_get_dead (s : PoolState) (t : Nat) (ok : Bool) (x : Nat)
    (h : Dead s x) : Dead (inner_get s t ok).2 x := by
  obtain ⟨hu, hn, hid⟩ := h
  by_cases havail : s.cur_sz < s.max_limit
  · cases hun : s.unused with
    | cons y rest =>
        rw [inner_get_reuse s t ok y rest havail hun]
        have hxy : x ≠ y := fun hc => hn (hun ▸ hc ▸ List.mem_cons_self y rest)
        refine ⟨?_, ?_, hid⟩
        · exact fun hc => (List.mem_cons.mp hc).elim hxy hu
        · exact fun hc => hn (hun ▸ List.mem_cons_of_mem y hc)
    | nil =>
        cases ok with
        | true =>
            rw [inner_get_construct s t havail hun]
            refine ⟨?_, ?_, Nat.lt_succ_of_lt hid⟩
            · exact fun hc =>
                (List.mem_cons.mp hc).elim (fun he => Nat.lt_irrefl x (he ▸ hid)) hu
            · exact hn
        | false =>
            rw [inner_get_ctorf s t havail hun]
            exact ⟨hu, hn, hid⟩
  · by_cases ht : t = 0
    · subst ht
      rw [inner_get_blocked s ok havail]
      exact ⟨hu, hn, hid⟩
    · rw [inner_get_timeout s t ok havail ht]
      exact ⟨hu, hn, hid⟩

theorem inner_put_dead (s : PoolState) (y x : Nat) (h : Dead s x) :
    Dead (inner_put s y) x := by
  obtain ⟨hu, hn, hid⟩ := h
  by_cases hy : y ∈ s.used
  · have hxy : x ≠ y := fun hc => hu (hc ▸ hy)
    by_cases hgt : s.idle_limit < s.used.length
    · rw [inner_put_discard s y hy hgt]
      exact ⟨fun hc => hu (List.mem_of_mem_erase hc), hn, hid⟩
    · rw [inner_put_park s y hy hgt]
      refine ⟨fun hc => hu (List.mem_of_mem_erase hc), ?_, hid⟩
      exact fun hc => (List.mem_cons.mp hc).elim hxy hn
  · rw [inner_put_absent s y hy]
    exact ⟨hu, hn, hid⟩

theorem step_dead (s : PoolState) (op : Op) (x : Nat) (h : Dead s x) :
    Dead (step s op) x := by
  cases op with
  | get t ok => exact inner_get_dead s t ok x h
  | put y => exact inner_put_dead s y x h

theorem inner_get_ne_dead (s : PoolState) (t : Nat) (ok : Bool) (x : Nat)
    (h : Dead s x) : (inner_get s t ok).1 ≠ GetResult.success x := by
  obtain ⟨hu, hn, hid⟩ := h
  by_cases havail : s.cur_sz < s.max_limit
  · cases hun : s.unused with
    | cons y rest =>
        rw [inner_get_reuse s t ok y rest havail hun]
        intro hc
        exact hn (hun ▸ (GetResult.success.inj hc) ▸ List.mem_cons_self y rest)
    | nil =>
        cases ok with
        | true =>
            rw [inner_get_construct s t havail hun]
            intro hc
            exact Nat.lt_irrefl x ((GetResult.success.inj hc) ▸ hid)
        | false =>
            rw [inner_get_ctorf s t havail hun]
            intro hc
            exact GetResult.noConfusion hc
  · by_cases ht : t = 0
    · subst ht
      rw [inner_get_blocked s ok havail]
      intro hc
      exact GetResult.noConfusion hc
    · rw [inner_get_timeout s t ok havail ht]
      intro hc
      exact GetResult.noConfusion hc

theorem dead_never_gets (x : Nat) (s : PoolState) (ops : List Op)
    (h : Dead s x) : NeverGets x s ops := by
  induction ops generalizing s with
  | nil => exact trivial
  | cons op rest ih =>
      refine ⟨?_, ih (step s op) (step_dead s op x h)⟩
      cases op with
      | get t ok => exact inner_get_ne_dead s t ok x h
      | put y => exact trivial

/-- C1: for every sequence of acquire/release operations on a pool constructed
with limits `il`/`ml` (effective `max_limit = max il ml`), `cur_sz` never
exceeds `max_limit`, the leased-map size never exceeds `max_limit`, and
`inner_get` constructs a new instance (advances the allocator) only when
`resource_available` held on entry. -/
theorem claim1_live_count_bounded (il ml : Nat) (ops : List Op) :
    (run (mkPool il ml) ops).cur_sz ≤ max il ml ∧
    (run (mkPool il ml) ops).used.length ≤ max il ml ∧
    (∀ s t ok, (inner_get s t ok).2.next_id ≠ s.next_id →
       resource_available s = true) := by
  obtain ⟨-, -, -, hcount, hbound, -, -, -⟩ := run_mkPool_inv il ml ops
  have hml : (run (mkPool il ml) ops).max_limit = max il ml := by
    rw [run_max_limit]
    rfl
  refine ⟨hml ▸ hbound, ?_, ?_⟩
  · rw [hml] at hbound
    omega
  · intro s t ok hne
    by_cases havail : s.cur_sz < s.max_limit
    · simp [resource_available, havail]
    · exfalso
      apply hne
      by_cases ht : t = 0
      · subst ht
        rw [inner_get_blocked s ok havail]
      · rw [inner_get_timeout s t ok havail ht]

theorem claim1_witness :
    (run (mkPool 1 2) [Op.get 0 true, Op.get 0 true, Op.get 0 true]).cur_sz ≤
      max 1 2 ∧
    resource_available (mkPool 0 1) = true :=
  ⟨(claim1_live_count_bounded 1 2 [Op.get 0 true, Op.get 0 true, Op.get 0 true]).1,
   (claim1_live_count_bounded 1 2 []).2.2 (mkPool 0 1) 1 true (by decide)⟩

/-- C2: for an instance in the leased map, `inner_put` compares the leased-map
size at decision time (before the erase) with `idle_limit`: strictly greater
means discard — `cur_sz` drops by one and the instance does not enter the
idle map; otherwise the instance enters the idle map and `cur_sz` is
unchanged.  Either way the instance leaves the leased map. -/
theorem claim2_release_decision (s : PoolState) (x : Nat) (h : Inv s)
    (hx : x ∈ s.used) :
    (s.idle_limit < s.used.length →
       (inner_put s x).cur_sz + 1 = s.cur_sz ∧
       (inner_put s x).unused = s.unused ∧
       x ∉ (inner_put s x).unused) ∧
    (¬ s.idle_limit < s.used.length →
       x ∈ (inner_put s x).unused ∧
       (inner_put s x).cur_sz = s.cur_sz) ∧
    x ∉ (inner_put s x).used := by
  obtain ⟨hnu, -, hdisj, hcount, -, -, -, -⟩ := h
  have hpos : 1 ≤ s.used.length := List.length_pos.mpr (List.ne_nil_of_mem hx)
  refine ⟨?_, ?_, ?_⟩
  · intro hgt
    rw [inner_put_discard s x hx hgt]
    refine ⟨?_, rfl, hdisj x hx⟩
    show s.cur_sz - 1 + 1 = s.cur_sz
    omega
  · intro hle
    rw [inner_put_park s x hx hle]
    exact ⟨List.mem_cons_self x s.unused, rfl⟩
  · by_cases hgt : s.idle_limit < s.used.length
    · rw [inner_put_discard s x hx hgt]
      exact hnu.not_mem_erase
    · rw [inner_put_park s x hx hgt]
      exact hnu.not_mem_erase

theorem claim2_witness :
    (inner_put ⟨0, 2, 1, [5], [], 6⟩ 5).cur_sz + 1 = 1 ∧
    (5 : Nat) ∉ (inner_put ⟨0, 2, 1, [5], [], 6⟩ 5).used :=
  ⟨((claim2_release_decision ⟨0, 2, 1, [5], [], 6⟩ 5 (by decide) (by decide)).1
      (by decide)).1,
   (claim2_release_decision ⟨0, 2, 1, [5], [], 6⟩ 5 (by decide) (by decide)).2.2⟩

/-- C3, as stated, is false: on the pool `mkPool 2 3`, acquire twice
(instances `0` and `1`), release `0` (leased size at decision `2 ≤
idle_limit = 2`, so `0` is parked idle), then release `1`.  The next acquire
passes the availability check and would otherwise construct a new instance,
yet it returns instance `1`, not the released instance `0`. -/
theorem claim3_cex :
    (0 : Nat) ∈ (run (mkPool 2 3) [Op.get 0 true, Op.get 0 true]).used ∧
    ¬ (run (mkPool 2 3) [Op.get 0 true, Op.get 0 true]).idle_limit <
        (run (mkPool 2 3) [Op.get 0 true, Op.get 0 true]).used.length ∧
    resource_available
      (run (mkPool 2 3) [Op.get 0 true, Op.get 0 true, Op.put 0, Op.put 1]) = true ∧
    (run (mkPool 2 3) [Op.get 0 true, Op.get 0 true, Op.put 0, Op.put 1]).unused ≠ [] ∧
    (inner_get
      (run (mkPool 2 3) [Op.get 0 true, Op.get 0 true, Op.put 0, Op.put 1])
      0 true).1 = GetResult.success 1 ∧
    GetResult.success 1 ≠ GetResult.success 0 := by
  decide

/-- C3 (amended): after a release whose leased-count-at-decision is at most
`idle_limit`, the released instance is parked idle, and the immediately
following acquire, when it passes the availability check, returns that same
instance with no factory invocation (`next_id` unchanged); after a release
whose leased-count-at-decision exceeds `idle_limit`, `cur_sz` strictly
decreases by one and the instance is never returned by any later acquire. -/
theorem claim3_reuse_and_discard (s : PoolState) (x t : Nat) (ok : Bool)
    (h : Inv s) (hx : x ∈ s.used) :
    (¬ s.idle_limit < s.used.length →
       x ∈ (inner_put s x).unused ∧
       (s.cur_sz < s.max_limit →
          (inner_get (inner_put s x) t ok).1 = GetResult.success x ∧
          (inner_get (inner_put s x) t ok).2.next_id = s.next_id)) ∧
    (s.idle_limit < s.used.length →
       (inner_put s x).cur_sz + 1 = s.cur_sz ∧
       Dead (inner_put s x) x ∧
       ∀ ops, NeverGets x (inner_put s x) ops) := by
  obtain ⟨hnu, -, hdisj, hcount, -, hfu, -, -⟩ := h
  have hpos : 1 ≤ s.used.length := List.length_pos.mpr (List.ne_nil_of_mem hx)
  constructor
  · intro hle
    rw [inner_put_park s x hx hle]
    refine ⟨List.mem_cons_self x s.unused, ?_⟩
    intro havail
    have h2 : ({ s with unused := x :: s.unused, used := s.used.erase x } :
        PoolState).cur_sz <
        ({ s with unused := x :: s.unused, used := s.used.erase x } :
          PoolState).max_limit := havail
    rw [inner_get_reuse _ t ok x s.unused h2 rfl]
    exact ⟨rfl, rfl⟩
  · intro hgt
    rw [inner_put_discard s x hx hgt]
    have hdead : Dead { s with cur_sz := s.cur_sz - 1, used := s.used.erase x } x :=
      ⟨hnu.not_mem_erase, hdisj x hx, hfu x hx⟩
    refine ⟨?_, hdead, fun ops => dead_never_gets x _ ops hdead⟩
    show s.cur_sz - 1 + 1 = s.cur_sz
    omega

theorem claim3_witness :
    (inner_get (inner_put ⟨1, 2, 1, [5], [], 6⟩ 5) 0 true).1 =
      GetResult.success 5 ∧
    (inner_put ⟨0, 3, 1, [7], [], 8⟩ 7).cur_sz + 1 = 1 :=
  ⟨(((claim3_reuse_and_discard ⟨1, 2, 1, [5], [], 6⟩ 5 0 true (by decide)
        (by decide)).1 (by decide)).2 (by decide)).1,
   ((claim3_reuse_and_discard ⟨0, 3, 1, [7], [], 8⟩ 7 0 true (by decide)
        (by decide)).2 (by decide)).1⟩

/-- C4: after every operation sequence from a fresh pool, `cur_sz` equals the
leased-map size plus the idle-map size and no instance is in both maps; and a
discarded instance (release from a reachable state with leased size above
`idle_limit`) is in neither map with `cur_sz` decremented for it. -/
theorem claim4_count_partition (il ml : Nat) (ops : List Op) :
    (run (mkPool il ml) ops).cur_sz =
        (run (mkPool il ml) ops).used.length +
          (run (mkPool il ml) ops).unused.length ∧
    (∀ x ∈ (run (mkPool il ml) ops).used,
        x ∉ (run (mkPool il ml) ops).unused) ∧
    (∀ s x, Inv s → x ∈ s.used → s.idle_limit < s.used.length →
       x ∉ (inner_put s x).used ∧ x ∉ (inner_put s x).unused ∧
       (inner_put s x).cur_sz + 1 = s.cur_sz) := by
  obtain ⟨-, -, hdisj, hcount, -, -, -, -⟩ := run_mkPool_inv il ml ops
  refine ⟨hcount, hdisj, ?_⟩
  intro s x hinv hx hgt
  obtain ⟨hnu, -, hdisj', hcount', -, -, -, -⟩ := hinv
  have hpos : 1 ≤ s.used.length := List.length_pos.mpr (List.ne_nil_of_mem hx)
  rw [inner_put_discard s x hx hgt]
  refine ⟨hnu.not_mem_erase, hdisj' x hx, ?_⟩
  show s.cur_sz - 1 + 1 = s.cur_sz
  omega

theorem claim4_witness :
    (run (mkPool 1 2) [Op.get 0 true, Op.get 0 true, Op.put 0]).cur_sz =
      (run (mkPool 1 2) [Op.get 0 true, Op.get 0 true, Op.put 0]).used.length +
        (run (mkPool 1 2) [Op.get 0 true, Op.get 0 true, Op.put 0]).unused.length ∧
    (7 : Nat) ∉ (inner_put ⟨0, 3, 1, [7], [], 8⟩ 7).used :=
  ⟨(claim4_count_partition 1 2 [Op.get 0 true, Op.get 0 true, Op.put 0]).1,
   ((claim4_count_partition 1 2 []).2.2 ⟨0, 3, 1, [7], [], 8⟩ 7 (by decide)
      (by decide) (by decide)).1⟩

/-- C5: when availability fails, an acquire with timeout zero stays blocked in
the wait (it never returns, and the state is untouched), and an acquire with a
nonzero timeout fails: `inner_get` throws the timeout, `get` converts it into
a `TIMEOUT` wrapper holding no instance, and the pool state is exactly the
pre-call state; when availability holds, an acquire neither blocks nor times
out. -/
theorem claim5_timeout_semantics (s : PoolState) (t : Nat) (ok : Bool) :
    (¬ s.cur_sz < s.max_limit → t = 0 →
       inner_get s t ok = (GetResult.blocked, s) ∧ get s t ok = none) ∧
    (¬ s.cur_sz < s.max_limit → t ≠ 0 →
       inner_get s t ok = (GetResult.timeout, s) ∧
       get s t ok = some (⟨none, GetStatus.TIMEOUT⟩, s)) ∧
    (s.cur_sz < s.max_limit →
       (inner_get s t ok).1 ≠ GetResult.blocked ∧
       (inner_get s t ok).1 ≠ GetResult.timeout) := by
  refine ⟨?_, ?_, ?_⟩
  · intro hnav ht
    subst ht
    have h1 := inner_get_blocked s ok hnav
    exact ⟨h1, by simp [get, h1]⟩
  · intro hnav ht
    have h1 := inner_get_timeout s t ok hnav ht
    exact ⟨h1, by simp [get, h1]⟩
  · intro havail
    cases hun : s.unused with
    | cons y rest =>
        rw [inner_get_reuse s t ok y rest havail hun]
        exact ⟨fun hc => GetResult.noConfusion hc, fun hc => GetResult.noConfusion hc⟩
    | nil =>
        cases ok with
        | true =>
            rw [inner_get_construct s t havail hun]
            exact ⟨fun hc => GetResult.noConfusion hc, fun hc => GetResult.noConfusion hc⟩
        | false =>
            rw [inner_get_ctorf s t havail hun]
            exact ⟨fun hc => GetResult.noConfusion hc, fun hc => GetResult.noConfusion hc⟩

theorem claim5_witness :
    get (mkPool 0 0) 1 true = some (⟨none, GetStatus.TIMEOUT⟩, mkPool 0 0) ∧
    get (mkPool 0 0) 0 true = none :=
  ⟨((claim5_timeout_semantics (mkPool 0 0) 1 true).2.1 (by decide) (by decide)).2,
   ((claim5_timeout_semantics (mkPool 0 0) 0 true).1 (by decide) rfl).2⟩

/-- C6: when an acquire reaches the factory (availability holds, idle map
empty) and the factory throws, `get` returns a `CTORF` wrapper holding no
instance and the pool state — `cur_sz` and both maps — is exactly the
pre-call state; in particular on a fresh pool with a positive effective limit
the first acquire leaves `size` at `0`. -/
theorem claim6_ctor_failure (s : PoolState) (t : Nat)
    (hu : s.unused = []) (havail : s.cur_sz < s.max_limit) :
    get s t false = some (⟨none, GetStatus.CTORF⟩, s) ∧
    (∀ il ml, 0 < max il ml →
       get (mkPool il ml) t false = some (⟨none, GetStatus.CTORF⟩, mkPool il ml) ∧
       size (mkPool il ml) = 0) := by
  constructor
  · simp [get, inner_get_ctorf s t havail hu]
  · intro il ml hpos
    have h1 : (mkPool il ml).unused = [] := rfl
    have h2 : (mkPool il ml).cur_sz < (mkPool il ml).max_limit := hpos
    exact ⟨by simp [get, inner_get_ctorf (mkPool il ml) t h2 h1], rfl⟩

theorem claim6_witness :
    get (mkPool 1 1) 0 false = some (⟨none, GetStatus.CTORF⟩, mkPool 1 1) ∧
    size (mkPool 1 1) = 0 :=
  (claim6_ctor_failure (mkPool 1 1) 0 rfl (by decide)).2 1 1 (by decide)

/-- C7 (modelled intent of `GetWrapper`'s move operations; the move-assignment
body as written is ill-formed C++): destroying a moved-from wrapper performs
no release; destroying the move-to target has exactly the release effect the
source alone would have had; and move-assignment onto a wrapper holding an
instance first releases that instance to the pool, takes the source's
instance, and clears the source. -/
theorem claim7_move_semantics (s : PoolState) (w dst src : GetWrapper) (x : Nat) :
    GetWrapper.dtor s (GetWrapper.moveCtor w).2 = s ∧
    GetWrapper.dtor s (GetWrapper.moveCtor w).1 = GetWrapper.dtor s w ∧
    (dst.ptr = some x →
       (GetWrapper.moveAssign s dst src).1 = inner_put s x ∧
       (GetWrapper.moveAssign s dst src).2.1.ptr = src.ptr ∧
       (GetWrapper.moveAssign s dst src).2.2.ptr = none) := by
  refine ⟨rfl, rfl, ?_⟩
  intro hdst
  refine ⟨?_, rfl, rfl⟩
  simp [GetWrapper.moveAssign, hdst]

theorem claim7_witness :
    (GetWrapper.moveAssign (mkPool 1 1) ⟨some 0, GetStatus.SUCCESS⟩
        ⟨some 1, GetStatus.SUCCESS⟩).1 = inner_put (mkPool 1 1) 0 :=
  ((claim7_move_semantics (mkPool 1 1) ⟨some 0, GetStatus.SUCCESS⟩
      ⟨some 0, GetStatus.SUCCESS⟩ ⟨some 1, GetStatus.SUCCESS⟩ 0).2.2 rfl).1

/-- C8: releasing an instance that is not in the leased map — a double release
or a foreign instance — leaves the pool state (in particular `cur_sz` and
both maps) completely unchanged. -/
theorem claim8_foreign_release (s : PoolState) (x : Nat) (h : x ∉ s.used) :
    inner_put s x = s :=
  inner_put_absent s x h

theorem claim8_witness :
    inner_put ⟨1, 2, 1, [3], [2], 4⟩ 2 = ⟨1, 2, 1, [3], [2], 4⟩ :=
  claim8_foreign_release ⟨1, 2, 1, [3], [2], 4⟩ 2 (by decide)

/-- C9: whenever `get` returns, the wrapper's status is one of `SUCCESS`,
`CTORF`, `TIMEOUT`, `UNKNOWN`; a non-`SUCCESS` wrapper holds no instance,
converts to boolean false, and destroying it releases nothing on any pool
state; a `SUCCESS` wrapper holds an instance. -/
theorem claim9_failure_boundary (s : PoolState) (t : Nat) (ok : Bool)
    (w : GetWrapper) (s' : PoolState) (hret : get s t ok = some (w, s')) :
    (w.err = GetStatus.SUCCESS ∨ w.err = GetStatus.CTORF ∨
       w.err = GetStatus.TIMEOUT ∨ w.err = GetStatus.UNKNOWN) ∧
    (w.err ≠ GetStatus.SUCCESS →
       w.ptr = none ∧ w.toBool = false ∧ ∀ u, GetWrapper.dtor u w = u) ∧
    (w.err = GetStatus.SUCCESS → ∃ y, w.ptr = some y) := by
  unfold get at hret
  rcases hres : inner_get s t ok with ⟨r, st⟩
  rw [hres] at hret
  refine ⟨?_, ?_, ?_⟩
  · cases h : w.err
    · exact Or.inl rfl
    · exact Or.inr (Or.inl rfl)
    · exact Or.inr (Or.inr (Or.inl rfl))
    · exact Or.inr (Or.inr (Or.inr rfl))
  · cases r with
    | success x =>
        simp only [Option.some.injEq, Prod.mk.injEq] at hret
        intro hne
        rw [← hret.1] at hne
        exact absurd rfl hne
    | timeout =>
        simp only [Option.some.injEq, Prod.mk.injEq] at hret
        rw [← hret.1]
        exact fun _ => ⟨rfl, rfl, fun u => rfl⟩
    | ctorf =>
        simp only [Option.some.injEq, Prod.mk.injEq] at hret
        rw [← hret.1]
        exact fun _ => ⟨rfl, rfl, fun u => rfl⟩
    | blocked => exact absurd hret (by simp)
  · cases r with
    | success x =>
        simp only [Option.some.injEq, Prod.mk.injEq] at hret
        rw [← hret.1]
        exact fun _ => ⟨x, rfl⟩
    | timeout =>
        simp only [Option.some.injEq, Prod.mk.injEq] at hret
        rw [← hret.1]
        intro hc
        exact absurd hc (fun hc' => GetStatus.noConfusion hc')
    | ctorf =>
        simp only [Option.some.injEq, Prod.mk.injEq] at hret
        rw [← hret.1]
        intro hc
        exact absurd hc (fun hc' => GetStatus.noConfusion hc')
    | blocked => exact absurd hret (by simp)

theorem claim9_witness :
    GetWrapper.toBool ⟨none, GetStatus.TIMEOUT⟩ = false :=
  ((claim9_failure_boundary (mkPool 0 0) 1 true ⟨none, GetStatus.TIMEOUT⟩
      (mkPool 0 0) (by decide)).2.1 (by decide)).2.1

/-- C10: after every operation sequence from a fresh pool the idle map holds
at most `idle_limit` instances, and whenever the idle map is nonempty the
leased-map size plus the idle-map size is at most `idle_limit`; moreover an
acquire from a state with a nonempty idle map never invokes the factory
(`next_id` and `cur_sz` are unchanged). -/
theorem claim10_idle_invariant (il ml : Nat) (ops : List Op) :
    (run (mkPool il ml) ops).unused.length ≤ il ∧
    ((run (mkPool il ml) ops).unused ≠ [] →
       (run (mkPool il ml) ops).used.length +
         (run (mkPool il ml) ops).unused.length ≤ il) ∧
    (∀ s t ok, s.unused ≠ [] →
       (inner_get s t ok).2.next_id = s.next_id ∧
       (inner_get s t ok).2.cur_sz = s.cur_sz) := by
  obtain ⟨-, -, -, -, -, -, -, hidle⟩ := run_mkPool_inv il ml ops
  have hil : (run (mkPool il ml) ops).idle_limit = il := by
    rw [run_idle_limit]
    rfl
  rw [hil] at hidle
  refine ⟨?_, hidle, ?_⟩
  · by_cases hne : (run (mkPool il ml) ops).unused = []
    · rw [hne]
      exact Nat.zero_le il
    · have := hidle hne
      omega
  · intro s t ok hne
    by_cases havail : s.cur_sz < s.max_limit
    · cases hun : s.unused with
      | cons y rest => rw [inner_get_reuse s t ok y rest havail hun]; exact ⟨rfl, rfl⟩
      | nil => exact absurd hun hne
    · by_cases ht : t = 0
      · subst ht
        rw [inner_get_blocked s ok havail]
        exact ⟨rfl, rfl⟩
      · rw [inner_get_timeout s t ok havail ht]
        exact ⟨rfl, rfl⟩

theorem claim10_witness :
    (run (mkPool 1 2) [Op.get 0 true, Op.get 0 true, Op.put 0]).unused.length ≤ 1 ∧
    (inner_get ⟨1, 2, 1, [], [5], 6⟩ 0 true).2.next_id = 6 :=
  ⟨(claim10_idle_invariant 1 2 [Op.get 0 true, Op.get 0 true, Op.put 0]).1,
   ((claim10_idle_invariant 1 2 []).2.2 ⟨1, 2, 1, [], [5], 6⟩ 0 true
      (by decide)).1⟩

end RCPool
